import Mathlib

/-!
Verification of the pine_pole_SHM analytical model and pipeline.

The definitions below are shallow embeddings of the repository's Python
code over the reals (floating point modelled as real arithmetic, the
not-a-number sentinel as `Option.none`, raised exceptions as `Except.error`):

* `pole_diameter`, `height_from_diameter` embed `np.interp` over the fixed
  measured profile `heights = [0, 7.5, 9]`, `diameters = [0.170, 0.210,
  0.249375]` from `utils/pole_est.py` (clamped piecewise-linear
  interpolation, exactly np.interp's behaviour for three knots).
* `natural_frequency` / `natural_frequency_with_support` embed the
  estimator functions of `utils/pole_est.py`, with the module-level
  configuration constants (`E`, `rho`, cable parameters) made explicit as
  a `Config` value.
* `classify` embeds the threshold classification of `main.py` (step 9)
  over `ℚ` (all comparisons involved are exact).
* `closest_peak` embeds the `closest_peak` helper of `main.py`
  (Python's `min(..., key=...)` keeps the first element attaining the
  minimal key).
* `extract_natural_frequency` embeds the FFT peak extraction of
  `utils/pole_det.py`.
-/

namespace PinePole

open Classical

noncomputable section

/-- np.interp of `utils/pole_est.py::pole_diameter` over the measured
knots `(0, 0.170), (7.5, 0.210), (9, 0.249375)`: piecewise-linear,
clamped to the endpoint values outside the measured span. -/
def pole_diameter (h : ℝ) : ℝ :=
  if h ≤ 0 then 0.170
  else if h ≤ 7.5 then 0.170 + (h - 0) * (0.210 - 0.170) / (7.5 - 0)
  else if h ≤ 9 then 0.210 + (h - 7.5) * (0.249375 - 0.210) / (9 - 7.5)
  else 0.249375

/-- np.interp of `utils/pole_est.py::height_from_diameter`: the inverse
interpolation over the same knots with the roles of the two arrays
swapped, again clamped outside the measured diameter range. -/
def height_from_diameter (d : ℝ) : ℝ :=
  if d ≤ 0.170 then 0
  else if d ≤ 0.210 then 0 + (d - 0.170) * (7.5 - 0) / (0.210 - 0.170)
  else if d ≤ 0.249375 then 7.5 + (d - 0.210) * (9 - 7.5) / (0.249375 - 0.210)
  else 9

/-- The module-level configuration constants of `utils/pole_est.py`:
`E` (Pa), `rho` (kg/m³), and the cable block (`CABLE_MASS_PER_M`,
`CABLE_LENGTH_EFFECTIVE`, `ATTACH_OFFSET_FROM_TOP`), made explicit. -/
structure Config where
  E : ℝ
  rho : ℝ
  cable_linear_mass : ℝ
  cable_effective_length : ℝ
  attachment_offset : ℝ

/-- `CABLE_TOTAL_MASS = CABLE_MASS_PER_M * CABLE_LENGTH_EFFECTIVE`. -/
def Config.cable_total_mass (c : Config) : ℝ :=
  c.cable_linear_mass * c.cable_effective_length

/-- Mean sampled diameter: `np.mean(pole_diameter(np.linspace(0, L, 100)))`,
the 100 sample points being `i * L / 99` for `i = 0, …, 99`. -/
def d_avg (L : ℝ) : ℝ :=
  (∑ i in Finset.range 100, pole_diameter (i * L / 99)) / 100

/-- Second moment of area `I = (π/64) d_avg⁴` of `natural_frequency`. -/
def beam_I (L : ℝ) : ℝ := (Real.pi / 64) * (d_avg L) ^ 4

/-- Mass per unit length `m = rho (π/4) d_avg²` of `natural_frequency`. -/
def beam_m (cfg : Config) (L : ℝ) : ℝ :=
  cfg.rho * (Real.pi / 4) * (d_avg L) ^ 2

/-- The uncabled first-mode frequency of `natural_frequency`:
`f_n = β₁² √(E I / (m L⁴)) / (2π)` with `β₁ = 1.875`. For an unphysical
configuration (`E ≤ 0` or `rho ≤ 0`) `Real.sqrt` of a negative argument
is 0 where numpy would produce NaN; the theorems below therefore assume
positive material constants wherever the branch matters. -/
def base_frequency (cfg : Config) (L : ℝ) : ℝ :=
  1.875 ^ 2 * Real.sqrt (cfg.E * beam_I L / (beam_m cfg L * L ^ 4)) / (2 * Real.pi)

/-- Modal effective beam mass `M_eff = 0.23 m L` of `natural_frequency`. -/
def M_eff (cfg : Config) (L : ℝ) : ℝ := 0.23 * beam_m cfg L * L

/-- The numeric value `natural_frequency` returns for a positive free
length: the cable branch multiplies by `√(M_eff / (M_eff + M_cable φ²))`
with the source's fixed `phi = 1.0` ("assume attached near tip"). -/
def freq_val (cfg : Config) (L : ℝ) : ℝ :=
  if 0 < cfg.cable_total_mass then
    base_frequency cfg L *
      Real.sqrt (M_eff cfg L / (M_eff cfg L + cfg.cable_total_mass * (1 : ℝ) ^ 2))
  else base_frequency cfg L

/-- `utils/pole_est.py::natural_frequency`; `none` is the `np.nan`
sentinel returned for `L_free ≤ 0`. -/
def natural_frequency (cfg : Config) (L_free : ℝ) : Option ℝ :=
  if L_free ≤ 0 then none else some (freq_val cfg L_free)

/-- `utils/pole_est.py::natural_frequency_with_support`:
`f_supported = f_free * (1 + 0.3 * np.clip(h_support / L_free, 0.1, 0.9))`,
propagating the NaN sentinel of the free computation. -/
def natural_frequency_with_support (cfg : Config) (L_free h_support : ℝ) : Option ℝ :=
  if L_free ≤ 0 then none
  else
    match natural_frequency cfg L_free with
    | none => none
    | some f_free =>
        some (f_free * (1 + 0.3 * min (max (h_support / L_free) 0.1) 0.9))

end

/-- The threshold configuration of `main.py` (`THR`), defaults 5/15/20. -/
structure Thresholds where
  minor_max : ℚ
  moderate_max : ℚ
  severe_min : ℚ

/-- The four severity levels assigned in step 9 of `main.py`. -/
inductive DamageLevel
  | Minor
  | Moderate
  | Severe
  | Unclassified
  deriving DecidableEq

/-- The if/elif/elif/else severity cascade of `main.py` step 9, on the
signed percentage deviation (all comparisons on its absolute value). -/
def classify (thr : Thresholds) (deviation : ℚ) : DamageLevel :=
  if |deviation| ≤ thr.minor_max then DamageLevel.Minor
  else if |deviation| ≤ thr.moderate_max then DamageLevel.Moderate
  else if thr.severe_min ≤ |deviation| then DamageLevel.Severe
  else DamageLevel.Unclassified

noncomputable section

/-- `main.py::closest_peak`: `min(f_peaks, key=lambda f: abs(f - target))`
when the target is not NaN, else NaN. `none` models NaN; Python's `min`
keeps the first element attaining the minimal key (it replaces the
running best only on a strictly smaller key). `min` of an empty sequence
raises, modelled as `none` (never reached by `main.py`, whose peak list
always has three entries). -/
def closest_peak (f_peaks : List ℝ) (target : Option ℝ) : Option ℝ :=
  match target with
  | none => none
  | some t =>
      match f_peaks with
      | [] => none
      | p :: ps =>
          some (ps.foldl (fun best f => if |f - t| < |best - t| then f else best) p)

end

/-- The exceptions `utils/pole_det.py::extract_natural_frequency` can
raise: its own `ValueError` for an empty component list, numpy's
`ValueError` for a zero-length FFT, and the `ValueError` from unpacking
fewer than three peak indices into `f1, f2, f3`. -/
inductive ExtractErr
  | noComponents
  | emptyFFT
  | unpack
  deriving DecidableEq

noncomputable section

/-- `np.mean` of a sequence. -/
def mean (a : List ℝ) : ℝ := a.sum / a.length

/-- The DC-bias removal `a_sig - np.mean(a_sig)`. -/
def center (a : List ℝ) : List ℝ := a.map (fun x => x - mean a)

/-- Root-mean-square amplitude `np.sqrt(np.mean(c**2))`. -/
def rms (a : List ℝ) : ℝ := Real.sqrt ((a.map (fun x => x ^ 2)).sum / a.length)

/-- Magnitude of the k-th bin of `np.fft.rfft`:
`|Σₙ aₙ e^(-2πikn/N)| = √((Σₙ aₙ cos(2πkn/N))² + (Σₙ aₙ sin(2πkn/N))²)`. -/
def rfft_mag (a : List ℝ) (k : ℕ) : ℝ :=
  Real.sqrt
    ((∑ n in Finset.range a.length,
        a.getD n 0 * Real.cos (2 * Real.pi * k * n / a.length)) ^ 2 +
     (∑ n in Finset.range a.length,
        a.getD n 0 * Real.sin (2 * Real.pi * k * n / a.length)) ^ 2)

/-- `np.abs(np.fft.rfft(a))`: the one-sided amplitude spectrum, bins
`0 … N/2` (so `N/2 + 1` bins for an `N`-sample signal). -/
def spectrum (a : List ℝ) : List ℝ :=
  (List.range (a.length / 2 + 1)).map (rfft_mag a)

/-- The spectrum with the DC amplitude zeroed: `spectrum_no_dc[0] = 0`. -/
def zeroed_spectrum (a : List ℝ) : List ℝ := (spectrum a).set 0 0

/-- Bin `k` of `np.fft.rfftfreq(N, d=1/fs)`: `k * fs / N`. -/
def rfft_freq (N : ℕ) (fs : ℝ) (k : ℕ) : ℝ := k * fs / N

/-- `np.argmax`: index of the first occurrence of the maximum (the
running best is replaced only on a strictly greater value). -/
def argmaxIdx (l : List ℝ) : ℕ :=
  (List.range l.length).foldl (fun best i => if l.getD best 0 < l.getD i 0 then i else best) 0

/-- `np.argsort(xs)[-3:][::-1]` before the `take`: the indices
`0 … len-1` sorted by descending value. numpy's introsort leaves the
relative order of equal values unspecified; the claims below depend on
tie order only at pairwise-distinct values, where every comparison sort
agrees with this stable insertion sort. -/
def argsortDesc (xs : List ℝ) : List ℕ :=
  List.insertionSort (fun i j => xs.getD j 0 ≤ xs.getD i 0) (List.range xs.length)

/-- `utils/pole_det.py::extract_natural_frequency` (the returned triple
of peak frequencies; the saved plot is I/O and not modelled):
collect the supplied axes, truncate to the shortest common length, pick
the axis of largest RMS (`np.argmax`), remove the mean, take the rFFT
amplitude spectrum, zero the DC bin, select the three largest bins in
descending amplitude order, and unpack their frequencies. The function
validates neither the sampling frequency nor the window length: the only
failure modes are the explicit no-components `ValueError`, numpy's
zero-length-FFT `ValueError`, and the tuple-unpack `ValueError` when the
spectrum has fewer than three bins. -/
def extract_natural_frequency (ax ay az : Option (List ℝ)) (fs : ℝ) :
    Except ExtractErr (ℝ × ℝ × ℝ) :=
  let components0 := ([ax, ay, az].filterMap id)
  if components0.isEmpty then Except.error ExtractErr.noComponents
  else
    let n := (components0.map List.length).min?.getD 0
    let components := components0.map (List.take n)
    let a_sig := center (components.getD (argmaxIdx (components.map rms)) [])
    if a_sig.length = 0 then Except.error ExtractErr.emptyFFT
    else
      match (argsortDesc (zeroed_spectrum a_sig)).take 3 with
      | [i1, i2, i3] =>
          Except.ok (rfft_freq a_sig.length fs i1, rfft_freq a_sig.length fs i2,
            rfft_freq a_sig.length fs i3)
      | _ => Except.error ExtractErr.unpack

/-- A concrete configuration with the spec's example material values and
a nonzero cable mass (total cable mass `0.6 * 30 = 18 kg`). -/
def cfgA : Config :=
  { E := 11e9, rho := 600, cable_linear_mass := 0.6,
    cable_effective_length := 30, attachment_offset := 2 }

/-- The same material with a zero-mass cable. -/
def cfgZ : Config :=
  { E := 11e9, rho := 600, cable_linear_mass := 0,
    cable_effective_length := 30, attachment_offset := 2 }

/-- A concrete zero-mean 4-sample acceleration signal whose rFFT
amplitude spectrum is `[0, √32, 4]` (three pairwise-distinct bins). -/
def exSig : List ℝ := [3, 1, -1, -3]

end

/-! ## Supporting lemmas -/

lemma pole_diameter_ge (h : ℝ) : 0.170 ≤ pole_diameter h := by
  unfold pole_diameter
  split_ifs with h1 h2 h3
  · exact le_rfl
  · have hpos : (0 : ℝ) < h := not_le.mp h1
    exact le_add_of_nonneg_right
      (div_nonneg (mul_nonneg (by linarith) (by norm_num)) (by norm_num))
  · have hgt : (7.5 : ℝ) < h := not_le.mp h2
    have hnn : (0 : ℝ) ≤ (h - 7.5) * (0.249375 - 0.210) / (9 - 7.5) :=
      div_nonneg (mul_nonneg (by linarith) (by norm_num)) (by norm_num)
    linarith
  · norm_num

lemma d_avg_ge (L : ℝ) : 0.170 ≤ d_avg L := by
  unfold d_avg
  have hsum : (100 : ℝ) * 0.170 ≤ ∑ i in Finset.range 100, pole_diameter (i * L / 99) := by
    have h1 : ∑ _i in Finset.range 100, (0.170 : ℝ) = (100 : ℝ) * 0.170 := by
      rw [Finset.sum_const, Finset.card_range, nsmul_eq_mul]
      norm_num
    calc (100 : ℝ) * 0.170 = ∑ _i in Finset.range 100, (0.170 : ℝ) := h1.symm
      _ ≤ _ := Finset.sum_le_sum fun i _ => pole_diameter_ge _
  linarith

/-- Full characterization of the severity cascade for the sane threshold
shape `minor_max ≤ moderate_max`. -/
lemma classify_spec (thr : Thresholds) (d : ℚ) (hmm : thr.minor_max ≤ thr.moderate_max) :
    (classify thr d = DamageLevel.Minor ↔ |d| ≤ thr.minor_max) ∧
    (classify thr d = DamageLevel.Moderate ↔
      thr.minor_max < |d| ∧ |d| ≤ thr.moderate_max) ∧
    (classify thr d = DamageLevel.Severe ↔
      thr.moderate_max < |d| ∧ thr.severe_min ≤ |d|) ∧
    (classify thr d = DamageLevel.Unclassified ↔
      thr.moderate_max < |d| ∧ |d| < thr.severe_min) := by
  unfold classify
  split_ifs with h1 h2 h3
  · refine ⟨iff_of_true rfl h1, ?_, ?_, ?_⟩
    · exact iff_of_false (by decide) (by rintro ⟨a, -⟩; linarith)
    · exact iff_of_false (by decide) (by rintro ⟨a, -⟩; linarith)
    · exact iff_of_false (by decide) (by rintro ⟨a, -⟩; linarith)
  · refine ⟨iff_of_false (by decide) h1, iff_of_true rfl ⟨not_le.mp h1, h2⟩, ?_, ?_⟩
    · exact iff_of_false (by decide) (by rintro ⟨a, -⟩; linarith)
    · exact iff_of_false (by decide) (by rintro ⟨a, -⟩; linarith)
  · refine ⟨iff_of_false (by decide) h1, ?_, iff_of_true rfl ⟨not_le.mp h2, h3⟩, ?_⟩
    · exact iff_of_false (by decide) (by rintro ⟨-, b⟩; exact h2 b)
    · exact iff_of_false (by decide) (by rintro ⟨-, b⟩; linarith)
  · refine ⟨iff_of_false (by decide) h1, ?_, ?_,
      iff_of_true rfl ⟨not_le.mp h2, not_le.mp h3⟩⟩
    · exact iff_of_false (by decide) (by rintro ⟨-, b⟩; exact h2 b)
    · exact iff_of_false (by decide) (by rintro ⟨-, b⟩; exact h3 b)

lemma d_avg_pos (L : ℝ) : 0 < d_avg L :=
  lt_of_lt_of_le (by norm_num) (d_avg_ge L)

lemma beam_m_pos (cfg : Config) (L : ℝ) (hrho : 0 < cfg.rho) : 0 < beam_m cfg L := by
  unfold beam_m
  exact mul_pos (mul_pos hrho (div_pos Real.pi_pos (by norm_num))) (pow_pos (d_avg_pos L) 2)

lemma base_frequency_pos (cfg : Config) (L : ℝ) (hE : 0 < cfg.E) (hrho : 0 < cfg.rho)
    (hL : 0 < L) : 0 < base_frequency cfg L := by
  unfold base_frequency
  have hI : 0 < beam_I L := by
    unfold beam_I
    exact mul_pos (div_pos Real.pi_pos (by norm_num)) (pow_pos (d_avg_pos L) 4)
  have harg : 0 < cfg.E * beam_I L / (beam_m cfg L * L ^ 4) :=
    div_pos (mul_pos hE hI) (mul_pos (beam_m_pos cfg L hrho) (pow_pos hL 4))
  exact div_pos (mul_pos (by norm_num) (Real.sqrt_pos.mpr harg))
    (mul_pos (by norm_num) Real.pi_pos)

lemma M_eff_pos (cfg : Config) (L : ℝ) (hrho : 0 < cfg.rho) (hL : 0 < L) :
    0 < M_eff cfg L := by
  unfold M_eff
  exact mul_pos (mul_pos (by norm_num) (beam_m_pos cfg L hrho)) hL

lemma freq_val_pos (cfg : Config) (L : ℝ) (hE : 0 < cfg.E) (hrho : 0 < cfg.rho)
    (hL : 0 < L) : 0 < freq_val cfg L := by
  unfold freq_val
  split_ifs with hc
  · refine mul_pos (base_frequency_pos cfg L hE hrho hL) (Real.sqrt_pos.mpr ?_)
    have hM := M_eff_pos cfg L hrho hL
    have hden : 0 < M_eff cfg L + cfg.cable_total_mass * (1 : ℝ) ^ 2 := by nlinarith
    exact div_pos hM hden
  · exact base_frequency_pos cfg L hE hrho hL

/-! ## Claims C10, C2, C9, C3, C1 -/

/-- Claim C10: the cable attachment offset is loaded from configuration
but never read by either frequency computation, so two runs differing
only in `attachment_offset` return identical results from both
`natural_frequency` and `natural_frequency_with_support`. -/
theorem C10_attachment_offset_no_effect (cfg : Config) (off1 off2 L h_support : ℝ) :
    natural_frequency { cfg with attachment_offset := off1 } L =
      natural_frequency { cfg with attachment_offset := off2 } L ∧
    natural_frequency_with_support { cfg with attachment_offset := off1 } L h_support =
      natural_frequency_with_support { cfg with attachment_offset := off2 } L h_support :=
  ⟨rfl, rfl⟩

/-- Claim C2: the severity cascade evaluates Minor, Moderate, Severe,
Unclassified in that fixed priority on the absolute deviation; with
thresholds (5, 15, 20) a deviation of 5.0 is Minor, 15.0 Moderate,
19.9 Unclassified, 20.0 Severe, and (for `minor_max ≤ moderate_max`)
Unclassified is reached exactly on `moderate_max < |d| < severe_min`. -/
theorem C2_classifier_boundaries :
    classify ⟨5, 15, 20⟩ 5 = DamageLevel.Minor ∧
    classify ⟨5, 15, 20⟩ 15 = DamageLevel.Moderate ∧
    classify ⟨5, 15, 20⟩ (199 / 10) = DamageLevel.Unclassified ∧
    classify ⟨5, 15, 20⟩ 20 = DamageLevel.Severe ∧
    (∀ d : ℚ, classify ⟨5, 15, 20⟩ d = DamageLevel.Unclassified ↔ 15 < |d| ∧ |d| < 20) ∧
    ∀ thr : Thresholds, ∀ d : ℚ, thr.minor_max ≤ thr.moderate_max →
      (classify thr d = DamageLevel.Minor ↔ |d| ≤ thr.minor_max) ∧
      (classify thr d = DamageLevel.Moderate ↔
        thr.minor_max < |d| ∧ |d| ≤ thr.moderate_max) ∧
      (classify thr d = DamageLevel.Severe ↔
        thr.moderate_max < |d| ∧ thr.severe_min ≤ |d|) ∧
      (classify thr d = DamageLevel.Unclassified ↔
        thr.moderate_max < |d| ∧ |d| < thr.severe_min) := by
  refine ⟨?_, ?_, ?_, ?_, ?_, fun thr d hmm => classify_spec thr d hmm⟩
  · exact (classify_spec _ 5 (by norm_num)).1.mpr (by norm_num)
  · exact (classify_spec _ 15 (by norm_num)).2.1.mpr (by norm_num)
  · refine (classify_spec _ (199 / 10) (by norm_num)).2.2.2.mpr ?_
    rw [abs_of_nonneg (by norm_num : (0 : ℚ) ≤ 199 / 10)]
    norm_num
  · exact (classify_spec _ 20 (by norm_num)).2.2.1.mpr (by norm_num)
  · intro d
    have h := (classify_spec ⟨5, 15, 20⟩ d (by norm_num)).2.2.2
    exact h

/-- Claim C9: for diameters within the measured range
`[0.170, 0.249375]` the inverse interpolation composed with the forward
interpolation recovers the diameter exactly (hence within any
interpolation tolerance). -/
theorem C9_round_trip (d : ℝ) (h1 : 0.170 ≤ d) (h2 : d ≤ 0.249375) :
    pole_diameter (height_from_diameter d) = d := by
  rcases le_or_lt d 0.170 with hd | hd
  · have hde : d = 0.170 := le_antisymm hd h1
    subst hde
    have hh : height_from_diameter 0.170 = 0 := by
      unfold height_from_diameter
      rw [if_pos le_rfl]
    rw [hh]
    unfold pole_diameter
    rw [if_pos le_rfl]
  · rcases le_or_lt d 0.210 with hd2 | hd2
    · have hval : height_from_diameter d = (d - 0.170) * 187.5 := by
        unfold height_from_diameter
        rw [if_neg (not_le.mpr hd), if_pos hd2]
        ring_nf
      have hpos : ¬ height_from_diameter d ≤ 0 := by rw [hval]; push_neg; nlinarith
      have hle : height_from_diameter d ≤ 7.5 := by rw [hval]; nlinarith
      unfold pole_diameter
      rw [if_neg hpos, if_pos hle, hval]
      ring_nf
    · have hval : height_from_diameter d = 7.5 + (d - 0.210) * (800 / 21) := by
        unfold height_from_diameter
        rw [if_neg (not_le.mpr hd), if_neg (not_le.mpr hd2), if_pos h2]
        ring_nf
      have hpos : ¬ height_from_diameter d ≤ 0 := by rw [hval]; push_neg; nlinarith
      have hgt : ¬ height_from_diameter d ≤ 7.5 := by rw [hval]; push_neg; nlinarith
      have hle : height_from_diameter d ≤ 9 := by rw [hval]; nlinarith
      unfold pole_diameter
      rw [if_neg hpos, if_neg hgt, if_pos hle, hval]
      ring_nf

/-- Claim C9 witness: the interior diameter 0.2 m round-trips exactly. -/
theorem C9_round_trip_witness : pole_diameter (height_from_diameter 0.2) = 0.2 :=
  C9_round_trip 0.2 (by norm_num) (by norm_num)

/-- Claim C3 counterexample: the claim asserts the NaN sentinel for every
`L > 0` with `L⁴ < 1e-12`, but `natural_frequency` has no such epsilon
guard: at `L = 1e-4` (whose fourth power `1e-16` is below `1e-12`) it
returns a numeric value, not the sentinel. -/
theorem C3_counterexample :
    ((1e-4 : ℝ)) ^ 4 < 1e-12 ∧ (0 : ℝ) < 1e-4 ∧
      natural_frequency cfgA 1e-4 ≠ none := by
  refine ⟨by norm_num, by norm_num, ?_⟩
  norm_num [natural_frequency]
  exact Option.some_ne_none _

/-- Claim C3 (amended): `natural_frequency` returns the NaN sentinel
exactly for `L ≤ 0` — there is no epsilon check on `L⁴` — and
`natural_frequency_with_support` propagates the sentinel. -/
theorem C3_nan_domain (cfg : Config) (L h_support : ℝ) :
    (L ≤ 0 → natural_frequency cfg L = none) ∧
    (0 < L → natural_frequency cfg L ≠ none) ∧
    (natural_frequency cfg L = none →
      natural_frequency_with_support cfg L h_support = none) := by
  refine ⟨fun hL => by simp [natural_frequency, hL],
    fun hL => by simp [natural_frequency, not_le.mpr hL], fun hn => ?_⟩
  rcases le_or_lt L 0 with hL | hL
  · simp [natural_frequency_with_support, hL]
  · exact absurd hn (by simp [natural_frequency, not_le.mpr hL])

/-- Claim C1 counterexample: the claim asserts that for some attachment
offset strictly inside `(0, L)` the cable reduction factor differs from
the `φ = 1` one; in the code `phi = 1.0` is hard-wired and the offset is
never read, so no such offset exists (here at `L = 9` with cable total
mass 18 kg). -/
theorem C1_counterexample :
    ¬ ∃ off : ℝ, 0 < off ∧ off < 9 ∧
      natural_frequency { cfgA with attachment_offset := off } 9 ≠
        natural_frequency { cfgA with attachment_offset := 0 } 9 := by
  rintro ⟨off, -, -, hne⟩
  exact hne rfl

/-- Claim C1 (amended): with a configured cable of total mass
`M_cable > 0`, `natural_frequency` reduces the uncabled frequency by
`√(M_eff / (M_eff + M_cable))` with `M_eff = 0.23 m L` and the fixed
mode-shape value `φ = 1.0` (attachment assumed at the tip); the
reduction is strict, and the attachment offset has no influence. -/
theorem C1_cable_reduction (cfg : Config) (L : ℝ) (hL : 0 < L)
    (hM : 0 < cfg.cable_total_mass) :
    natural_frequency cfg L =
      some (base_frequency cfg L *
        Real.sqrt (0.23 * beam_m cfg L * L /
          (0.23 * beam_m cfg L * L + cfg.cable_total_mass))) ∧
    (0 < cfg.E → 0 < cfg.rho → freq_val cfg L < base_frequency cfg L) ∧
    ∀ off : ℝ,
      natural_frequency { cfg with attachment_offset := off } L =
        natural_frequency cfg L := by
  refine ⟨?_, ?_, fun off => rfl⟩
  · unfold natural_frequency freq_val
    rw [if_neg (not_le.mpr hL), if_pos hM]
    norm_num [M_eff]
  · intro hE hrho
    unfold freq_val
    rw [if_pos hM]
    have hM0 := M_eff_pos cfg L hrho hL
    have harg : M_eff cfg L / (M_eff cfg L + cfg.cable_total_mass * (1 : ℝ) ^ 2) < 1 := by
      rw [div_lt_one (by nlinarith)]
      nlinarith
    have hs : Real.sqrt (M_eff cfg L / (M_eff cfg L + cfg.cable_total_mass * (1 : ℝ) ^ 2)) < 1 := by
      have := Real.sqrt_lt_sqrt (le_of_lt (div_pos hM0 (by nlinarith))) harg
      simpa using this
    have hb := base_frequency_pos cfg L hE hrho hL
    calc base_frequency cfg L *
        Real.sqrt (M_eff cfg L / (M_eff cfg L + cfg.cable_total_mass * (1 : ℝ) ^ 2)) <
        base_frequency cfg L * 1 := by
          exact mul_lt_mul_of_pos_left hs hb
      _ = base_frequency cfg L := mul_one _

/-- Claim C1 witness: the amended statement at the concrete
configuration `cfgA` (cable total mass 18 kg) and `L = 9`. -/
theorem C1_cable_reduction_witness :
    natural_frequency cfgA 9 =
      some (base_frequency cfgA 9 *
        Real.sqrt (0.23 * beam_m cfgA 9 * 9 /
          (0.23 * beam_m cfgA 9 * 9 + cfgA.cable_total_mass))) ∧
    (0 < cfgA.E → 0 < cfgA.rho → freq_val cfgA 9 < base_frequency cfgA 9) ∧
    ∀ off : ℝ,
      natural_frequency { cfgA with attachment_offset := off } 9 =
        natural_frequency cfgA 9 :=
  C1_cable_reduction cfgA 9 (by norm_num)
    (by norm_num [cfgA, Config.cable_total_mass])

/-- Claim C8: with length, geometry and material fixed, the computed
frequency is strictly decreasing in the total attached cable mass, and a
zero cable mass leaves the frequency at the uncabled value. -/
theorem C8_cable_mass_monotone (cfg1 cfg2 : Config) (L : ℝ) (hL : 0 < L)
    (hE : 0 < cfg1.E) (hrho : 0 < cfg1.rho)
    (hEeq : cfg2.E = cfg1.E) (hrhoeq : cfg2.rho = cfg1.rho)
    (hm1 : 0 ≤ cfg1.cable_total_mass)
    (hlt : cfg1.cable_total_mass < cfg2.cable_total_mass) :
    (∃ v1 v2, natural_frequency cfg1 L = some v1 ∧
      natural_frequency cfg2 L = some v2 ∧ v2 < v1) ∧
    (cfg1.cable_total_mass = 0 →
      natural_frequency cfg1 L = some (base_frequency cfg1 L)) := by
  have hbase : base_frequency cfg2 L = base_frequency cfg1 L := by
    unfold base_frequency beam_m
    rw [hEeq, hrhoeq]
  have hMe : M_eff cfg2 L = M_eff cfg1 L := by
    unfold M_eff beam_m
    rw [hrhoeq]
  have hM1pos := M_eff_pos cfg1 L hrho hL
  have hbpos := base_frequency_pos cfg1 L hE hrho hL
  constructor
  · refine ⟨freq_val cfg1 L, freq_val cfg2 L,
      by simp [natural_frequency, not_le.mpr hL],
      by simp [natural_frequency, not_le.mpr hL], ?_⟩
    rcases eq_or_lt_of_le hm1 with hz | hz
    · have hc2 : 0 < cfg2.cable_total_mass := by linarith
      have h1 : freq_val cfg1 L = base_frequency cfg1 L := by
        unfold freq_val
        rw [if_neg (by rw [← hz]; exact lt_irrefl 0)]
      have h2 : freq_val cfg2 L = base_frequency cfg1 L *
          Real.sqrt (M_eff cfg1 L /
            (M_eff cfg1 L + cfg2.cable_total_mass * (1 : ℝ) ^ 2)) := by
        unfold freq_val
        rw [if_pos hc2, hbase, hMe]
      rw [h1, h2]
      have harg : M_eff cfg1 L /
          (M_eff cfg1 L + cfg2.cable_total_mass * (1 : ℝ) ^ 2) < 1 := by
        rw [div_lt_one (by nlinarith)]
        nlinarith
      have hs : Real.sqrt (M_eff cfg1 L /
          (M_eff cfg1 L + cfg2.cable_total_mass * (1 : ℝ) ^ 2)) < 1 := by
        have := Real.sqrt_lt_sqrt
          (le_of_lt (div_pos hM1pos (by nlinarith))) harg
        simpa using this
      calc base_frequency cfg1 L *
          Real.sqrt (M_eff cfg1 L /
            (M_eff cfg1 L + cfg2.cable_total_mass * (1 : ℝ) ^ 2)) <
          base_frequency cfg1 L * 1 := mul_lt_mul_of_pos_left hs hbpos
        _ = base_frequency cfg1 L := mul_one _
    · have hc2 : 0 < cfg2.cable_total_mass := lt_trans hz hlt
      have h1 : freq_val cfg1 L = base_frequency cfg1 L *
          Real.sqrt (M_eff cfg1 L /
            (M_eff cfg1 L + cfg1.cable_total_mass * (1 : ℝ) ^ 2)) := by
        unfold freq_val
        rw [if_pos hz]
      have h2 : freq_val cfg2 L = base_frequency cfg1 L *
          Real.sqrt (M_eff cfg1 L /
            (M_eff cfg1 L + cfg2.cable_total_mass * (1 : ℝ) ^ 2)) := by
        unfold freq_val
        rw [if_pos hc2, hbase, hMe]
      rw [h1, h2]
      have harg : M_eff cfg1 L /
          (M_eff cfg1 L + cfg2.cable_total_mass * (1 : ℝ) ^ 2) <
          M_eff cfg1 L / (M_eff cfg1 L + cfg1.cable_total_mass * (1 : ℝ) ^ 2) := by
        apply div_lt_div_of_pos_left hM1pos (by nlinarith)
        nlinarith
      have hs := Real.sqrt_lt_sqrt
        (le_of_lt (div_pos hM1pos (by nlinarith))) harg
      exact mul_lt_mul_of_pos_left hs hbpos
  · intro h0
    have h1 : freq_val cfg1 L = base_frequency cfg1 L := by
      unfold freq_val
      rw [if_neg (by rw [h0]; exact lt_irrefl 0)]
    simp [natural_frequency, not_le.mpr hL, h1]

/-- Claim C8 witness: the monotonicity at the concrete configurations
with cable masses 0 kg and 18 kg, at `L = 9`. -/
theorem C8_cable_mass_monotone_witness :
    (∃ v1 v2, natural_frequency cfgZ 9 = some v1 ∧
      natural_frequency cfgA 9 = some v2 ∧ v2 < v1) ∧
    (cfgZ.cable_total_mass = 0 →
      natural_frequency cfgZ 9 = some (base_frequency cfgZ 9)) :=
  C8_cable_mass_monotone cfgZ cfgA 9 (by norm_num) (by norm_num [cfgZ])
    (by norm_num [cfgZ]) (by norm_num [cfgA, cfgZ]) (by norm_num [cfgA, cfgZ])
    (by norm_num [cfgZ, Config.cable_total_mass])
    (by norm_num [cfgA, cfgZ, Config.cable_total_mass])

/-- Claim C4: for computable `L > 0` the supported frequency is
`f_free * (1 + 0.3 * clip(h/L, 0.1, 0.9))`; the value at `h = 0` equals
the value at `h = 0.1 L`, and on the unclamped interior the supported
frequency is strictly increasing in the support height. -/
theorem C4_supported_formula (cfg : Config) (L : ℝ) (hL : 0 < L)
    (hE : 0 < cfg.E) (hrho : 0 < cfg.rho) :
    (∀ h_support : ℝ, natural_frequency_with_support cfg L h_support =
      some (freq_val cfg L * (1 + 0.3 * min (max (h_support / L) 0.1) 0.9))) ∧
    natural_frequency_with_support cfg L 0 =
      natural_frequency_with_support cfg L (0.1 * L) ∧
    ∀ h1 h2 : ℝ, 0.1 * L ≤ h1 → h1 < h2 → h2 ≤ 0.9 * L →
      ∃ v1 v2, natural_frequency_with_support cfg L h1 = some v1 ∧
        natural_frequency_with_support cfg L h2 = some v2 ∧ v1 < v2 := by
  have hnf : natural_frequency cfg L = some (freq_val cfg L) := by
    simp [natural_frequency, not_le.mpr hL]
  have key : ∀ h_support : ℝ, natural_frequency_with_support cfg L h_support =
      some (freq_val cfg L * (1 + 0.3 * min (max (h_support / L) 0.1) 0.9)) := by
    intro hs
    unfold natural_frequency_with_support
    rw [if_neg (not_le.mpr hL), hnf]
  refine ⟨key, ?_, ?_⟩
  · rw [key 0, key (0.1 * L)]
    have e1 : (0 : ℝ) / L = 0 := zero_div L
    have e2 : (0.1 * L) / L = 0.1 := by
      field_simp
    rw [e1, e2, max_self, max_eq_right (by norm_num : (0 : ℝ) ≤ 0.1)]
  · intro h1 h2 hh1 hlt hh2
    have hr1a : (0.1 : ℝ) ≤ h1 / L := (le_div_iff₀ hL).mpr (by linarith)
    have hr1b : h1 / L ≤ 0.9 := (div_le_iff₀ hL).mpr (by linarith)
    have hr2a : (0.1 : ℝ) ≤ h2 / L := (le_div_iff₀ hL).mpr (by linarith)
    have hr2b : h2 / L ≤ 0.9 := (div_le_iff₀ hL).mpr (by linarith)
    have hrlt : h1 / L < h2 / L := by gcongr
    refine ⟨_, _, key h1, key h2, ?_⟩
    rw [max_eq_left hr1a, max_eq_left hr2a, min_eq_left hr1b, min_eq_left hr2b]
    have hf := freq_val_pos cfg L hE hrho hL
    apply mul_lt_mul_of_pos_left _ hf
    linarith

/-- Claim C4 witness: the supported-case properties at the concrete
configuration `cfgA` and `L = 9`. -/
theorem C4_supported_formula_witness :
    (∀ h_support : ℝ, natural_frequency_with_support cfgA 9 h_support =
      some (freq_val cfgA 9 * (1 + 0.3 * min (max (h_support / 9) 0.1) 0.9))) ∧
    natural_frequency_with_support cfgA 9 0 =
      natural_frequency_with_support cfgA 9 (0.1 * 9) ∧
    ∀ h1 h2 : ℝ, 0.1 * 9 ≤ h1 → h1 < h2 → h2 ≤ 0.9 * 9 →
      ∃ v1 v2, natural_frequency_with_support cfgA 9 h1 = some v1 ∧
        natural_frequency_with_support cfgA 9 h2 = some v2 ∧ v1 < v2 :=
  C4_supported_formula cfgA 9 (by norm_num) (by norm_num [cfgA]) (by norm_num [cfgA])

/-- Python's strict-replace running minimum returns the value at the
earliest position attaining the minimal key: it is a list member, its
key is minimal, and every strictly earlier position has a strictly
larger key. -/
lemma foldlMin_spec (t : ℝ) :
    ∀ (xs : List ℝ) (x : ℝ),
      ∃ i : ℕ, i < (x :: xs).length ∧
        xs.foldl (fun best f => if |f - t| < |best - t| then f else best) x =
          (x :: xs).getD i 0 ∧
        (∀ j : ℕ, j < (x :: xs).length →
          |(x :: xs).getD i 0 - t| ≤ |(x :: xs).getD j 0 - t|) ∧
        (∀ j : ℕ, j < i → |(x :: xs).getD i 0 - t| < |(x :: xs).getD j 0 - t|) := by
  intro xs
  induction xs with
  | nil =>
      intro x
      refine ⟨0, by simp, by simp, ?_, ?_⟩
      · intro j hj
        have hj0 : j = 0 := by simpa using Nat.lt_one_iff.mp (by simpa using hj)
        subst hj0
        exact le_rfl
      · intro j hj
        exact absurd hj (Nat.not_lt_zero j)
  | cons y ys ih =>
      intro x
      rw [List.foldl_cons]
      by_cases hxy : |y - t| < |x - t|
      · rw [if_pos hxy]
        obtain ⟨i, hi, heq, hmin, hfirst⟩ := ih y
        refine ⟨i + 1, by simpa using Nat.succ_lt_succ (by simpa using hi), ?_, ?_, ?_⟩
        · simpa [List.getD_cons_succ] using heq
        · intro j hj
          rcases j with _ | k
          · simp only [List.getD_cons_succ, List.getD_cons_zero]
            exact le_trans (by simpa using hmin 0 (by simp)) (le_of_lt hxy)
          · simp only [List.getD_cons_succ]
            exact hmin k (by simpa using Nat.lt_of_succ_lt_succ hj)
        · intro j hj
          rcases j with _ | k
          · simp only [List.getD_cons_succ, List.getD_cons_zero]
            exact lt_of_le_of_lt (by simpa using hmin 0 (by simp)) hxy
          · simp only [List.getD_cons_succ]
            exact hfirst k (Nat.lt_of_succ_lt_succ hj)
      · rw [if_neg hxy]
        have hxle : |x - t| ≤ |y - t| := not_lt.mp hxy
        obtain ⟨i, hi, heq, hmin, hfirst⟩ := ih x
        rcases i with _ | k
        · refine ⟨0, by simp, by simpa using heq, ?_, ?_⟩
          · intro j hj
            rcases j with _ | k
            · exact le_rfl
            · rcases k with _ | m
              · simpa [List.getD_cons_succ, List.getD_cons_zero] using hxle
              · simp only [List.getD_cons_succ, List.getD_cons_zero]
                have := hmin (m + 1) (by simp only [List.length_cons] at hj ⊢; omega)
                simpa [List.getD_cons_succ, List.getD_cons_zero] using this
          · intro j hj
            exact absurd hj (Nat.not_lt_zero j)
        · refine ⟨k + 2, ?_, ?_, ?_, ?_⟩
          · simp only [List.length_cons] at hi ⊢
            omega
          · simpa [List.getD_cons_succ] using heq
          · intro j hj
            have hm0 : |(x :: ys).getD (k + 1) 0 - t| ≤ |x - t| := by
              simpa using hmin 0 (by simp)
            rcases j with _ | m
            · simpa [List.getD_cons_succ, List.getD_cons_zero] using hm0
            · rcases m with _ | m2
              · simp only [List.getD_cons_succ, List.getD_cons_zero]
                calc |(ys.getD k 0) - t| = |(x :: ys).getD (k + 1) 0 - t| := by
                      simp [List.getD_cons_succ]
                  _ ≤ |x - t| := hm0
                  _ ≤ |y - t| := hxle
              · simp only [List.getD_cons_succ]
                have := hmin (m2 + 1) (by simp only [List.length_cons] at hj ⊢; omega)
                simpa [List.getD_cons_succ] using this
          · intro j hj
            have hm0 : |(x :: ys).getD (k + 1) 0 - t| < |x - t| := by
              simpa using hfirst 0 (Nat.succ_pos k)
            rcases j with _ | m
            · simpa [List.getD_cons_succ, List.getD_cons_zero] using hm0
            · rcases m with _ | m2
              · simp only [List.getD_cons_succ, List.getD_cons_zero]
                calc |(ys.getD k 0) - t| = |(x :: ys).getD (k + 1) 0 - t| := by
                      simp [List.getD_cons_succ]
                  _ < |x - t| := hm0
                  _ ≤ |y - t| := hxle
              · simp only [List.getD_cons_succ]
                have := hfirst (m2 + 1) (by omega)
                simpa [List.getD_cons_succ] using this

/-- Claim C7: on a non-empty peak list, `closest_peak` returns the peak
minimizing the absolute difference to the target, the first such peak in
list order winning ties, and a NaN target propagates with no matching. -/
theorem C7_closest_peak (p : ℝ) (ps : List ℝ) (t : ℝ) :
    closest_peak (p :: ps) none = none ∧
    ∃ i : ℕ, i < (p :: ps).length ∧
      closest_peak (p :: ps) (some t) = some ((p :: ps).getD i 0) ∧
      (∀ j : ℕ, j < (p :: ps).length →
        |(p :: ps).getD i 0 - t| ≤ |(p :: ps).getD j 0 - t|) ∧
      (∀ j : ℕ, j < i → |(p :: ps).getD i 0 - t| < |(p :: ps).getD j 0 - t|) := by
  refine ⟨rfl, ?_⟩
  obtain ⟨i, hi, heq, hmin, hfirst⟩ := foldlMin_spec t ps p
  exact ⟨i, hi, congrArg some heq, hmin, hfirst⟩

/-! ## Spectral extraction: supporting lemmas -/

lemma extract_none (fs : ℝ) :
    extract_natural_frequency none none none fs =
      Except.error ExtractErr.noComponents := rfl

lemma argmaxIdx_singleton (v : ℝ) : argmaxIdx [v] = 0 := by
  unfold argmaxIdx
  simp [List.range_succ]

/-- With a single supplied axis the pipeline reduces to: spectrum of the
centered signal, DC zeroed, top-3 indices, unpack. -/
lemma extract_single_eq (a : List ℝ) (ha : a ≠ []) (fs : ℝ) :
    extract_natural_frequency (some a) none none fs =
      (match (argsortDesc (zeroed_spectrum (center a))).take 3 with
       | [i1, i2, i3] => Except.ok (rfft_freq a.length fs i1, rfft_freq a.length fs i2,
           rfft_freq a.length fs i3)
       | _ => Except.error ExtractErr.unpack) := by
  unfold extract_natural_frequency
  simp only [List.filterMap_cons, id, Option.isSome_some, List.filterMap_nil,
    List.isEmpty_cons, List.map_cons, List.map_nil, List.length_map]
  rw [if_neg (by simp)]
  simp only [List.min?, List.foldl_nil, Option.getD_some, List.take_length,
    argmaxIdx_singleton, List.getD_cons_zero]
  rw [if_neg (by simpa [center] using ha)]
  simp [center]

lemma extract_single_nil (fs : ℝ) :
    extract_natural_frequency (some []) none none fs =
      Except.error ExtractErr.emptyFFT := by
  unfold extract_natural_frequency
  simp [argmaxIdx_singleton, center]

lemma sum_range_four (f : ℕ → ℝ) :
    ∑ n in Finset.range 4, f n = f 0 + f 1 + f 2 + f 3 := by
  rw [Finset.sum_range_succ, Finset.sum_range_succ, Finset.sum_range_succ,
    Finset.sum_range_one]

/-- Closed forms of the three rFFT bin magnitudes of a 4-sample signal
(the fourth root of unity collapses the trigonometric sums). -/
lemma rfft_mag_four (a0 a1 a2 a3 : ℝ) :
    rfft_mag [a0, a1, a2, a3] 0 = Real.sqrt ((a0 + a1 + a2 + a3) ^ 2) ∧
    rfft_mag [a0, a1, a2, a3] 1 = Real.sqrt ((a0 - a2) ^ 2 + (a3 - a1) ^ 2) ∧
    rfft_mag [a0, a1, a2, a3] 2 = Real.sqrt ((a0 - a1 + a2 - a3) ^ 2) := by
  have hc3 : Real.cos (Real.pi + Real.pi / 2) = 0 := by
    rw [Real.cos_add, Real.cos_pi, Real.sin_pi, Real.cos_pi_div_two, Real.sin_pi_div_two]
    ring
  have hs3 : Real.sin (Real.pi + Real.pi / 2) = -1 := by
    rw [Real.sin_add, Real.sin_pi, Real.cos_pi, Real.cos_pi_div_two, Real.sin_pi_div_two]
    ring
  have hc2p : Real.cos (2 * Real.pi) = 1 := Real.cos_two_pi
  have hs2p : Real.sin (2 * Real.pi) = 0 := Real.sin_two_pi
  have hc3p : Real.cos (2 * Real.pi + Real.pi) = -1 := by
    rw [Real.cos_add, hc2p, hs2p, Real.cos_pi, Real.sin_pi]
    ring
  have hs3p : Real.sin (2 * Real.pi + Real.pi) = 0 := by
    rw [Real.sin_add, hc2p, hs2p, Real.cos_pi, Real.sin_pi]
    ring
  refine ⟨?_, ?_, ?_⟩
  · unfold rfft_mag
    rw [show ([a0, a1, a2, a3] : List ℝ).length = 4 from rfl, sum_range_four,
      sum_range_four]
    push_cast
    rw [show 2 * Real.pi * (0 : ℝ) * 0 / 4 = 0 by ring,
        show 2 * Real.pi * (0 : ℝ) * 1 / 4 = 0 by ring,
        show 2 * Real.pi * (0 : ℝ) * 2 / 4 = 0 by ring,
        show 2 * Real.pi * (0 : ℝ) * 3 / 4 = 0 by ring,
        Real.cos_zero, Real.sin_zero]
    simp only [List.getD_cons_zero, List.getD_cons_succ]
    ring_nf
  · unfold rfft_mag
    rw [show ([a0, a1, a2, a3] : List ℝ).length = 4 from rfl, sum_range_four,
      sum_range_four]
    push_cast
    rw [show 2 * Real.pi * (1 : ℝ) * 0 / 4 = 0 by ring,
        show 2 * Real.pi * (1 : ℝ) * 1 / 4 = Real.pi / 2 by ring,
        show 2 * Real.pi * (1 : ℝ) * 2 / 4 = Real.pi by ring,
        show 2 * Real.pi * (1 : ℝ) * 3 / 4 = Real.pi + Real.pi / 2 by ring,
        Real.cos_zero, Real.sin_zero, Real.cos_pi_div_two, Real.sin_pi_div_two,
        Real.cos_pi, Real.sin_pi, hc3, hs3]
    simp only [List.getD_cons_zero, List.getD_cons_succ]
    ring_nf
  · unfold rfft_mag
    rw [show ([a0, a1, a2, a3] : List ℝ).length = 4 from rfl, sum_range_four,
      sum_range_four]
    push_cast
    rw [show 2 * Real.pi * (2 : ℝ) * 0 / 4 = 0 by ring,
        show 2 * Real.pi * (2 : ℝ) * 1 / 4 = Real.pi by ring,
        show 2 * Real.pi * (2 : ℝ) * 2 / 4 = 2 * Real.pi by ring,
        show 2 * Real.pi * (2 : ℝ) * 3 / 4 = 2 * Real.pi + Real.pi by ring,
        Real.cos_zero, Real.sin_zero, Real.cos_pi, Real.sin_pi, hc2p, hs2p, hc3p, hs3p]
    simp only [List.getD_cons_zero, List.getD_cons_succ]
    ring_nf

lemma center_exSig : center exSig = exSig := by
  have hm : mean exSig = 0 := by
    unfold mean exSig
    norm_num
  unfold center
  rw [hm]
  simp

lemma sqrt32_gt_four : (4 : ℝ) < Real.sqrt 32 := by
  have h16 : Real.sqrt 16 = 4 := by
    rw [show (16 : ℝ) = 4 ^ 2 by norm_num, Real.sqrt_sq (by norm_num)]
  calc (4 : ℝ) = Real.sqrt 16 := h16.symm
    _ < Real.sqrt 32 := Real.sqrt_lt_sqrt (by norm_num) (by norm_num)

lemma spectrum_exSig : spectrum exSig = [0, Real.sqrt 32, 4] := by
  obtain ⟨h0, h1, h2⟩ := rfft_mag_four 3 1 (-1) (-3)
  unfold spectrum
  rw [show exSig.length / 2 + 1 = 3 from rfl,
    show List.range 3 = [0, 1, 2] by simp [List.range_succ]]
  simp only [List.map_cons, List.map_nil]
  rw [show (exSig : List ℝ) = [3, 1, -1, -3] from rfl, h0, h1, h2]
  refine congrArg₂ _ ?_ (congrArg₂ _ ?_ (congrArg₂ _ ?_ rfl))
  · rw [show ((3 : ℝ) + 1 + -1 + -3) ^ 2 = 0 by norm_num, Real.sqrt_zero]
  · norm_num
  · rw [show ((3 : ℝ) - 1 + -1 - -3) ^ 2 = 4 ^ 2 by norm_num, Real.sqrt_sq (by norm_num)]

lemma zeroed_exSig : zeroed_spectrum exSig = [0, Real.sqrt 32, 4] := by
  rw [zeroed_spectrum, spectrum_exSig]
  rfl

lemma argsort_exSig : argsortDesc [0, Real.sqrt 32, 4] = [1, 2, 0] := by
  have h32 := sqrt32_gt_four
  have hr12 : ([0, Real.sqrt 32, 4] : List ℝ).getD 2 0 ≤
      ([0, Real.sqrt 32, 4] : List ℝ).getD 1 0 := by
    simp only [List.getD_cons_zero, List.getD_cons_succ]
    linarith
  have hr01 : ¬ ([0, Real.sqrt 32, 4] : List ℝ).getD 1 0 ≤
      ([0, Real.sqrt 32, 4] : List ℝ).getD 0 0 := by
    simp only [List.getD_cons_zero, List.getD_cons_succ]
    push_neg
    linarith
  have hr02 : ¬ ([0, Real.sqrt 32, 4] : List ℝ).getD 2 0 ≤
      ([0, Real.sqrt 32, 4] : List ℝ).getD 0 0 := by
    simp only [List.getD_cons_zero, List.getD_cons_succ]
    push_neg
    linarith
  unfold argsortDesc
  rw [show ([0, Real.sqrt 32, 4] : List ℝ).length = 3 from rfl,
    show List.range 3 = [0, 1, 2] by simp [List.range_succ]]
  simp only [List.insertionSort, List.orderedInsert]
  rw [if_pos hr12]
  simp only [List.orderedInsert]
  rw [if_neg hr01, if_neg hr02]

lemma argsortDesc_sorted (xs : List ℝ) :
    (argsortDesc xs).Sorted (fun i j => xs.getD j 0 ≤ xs.getD i 0) := by
  haveI : IsTotal ℕ (fun i j => xs.getD j 0 ≤ xs.getD i 0) := ⟨fun a b => le_total _ _⟩
  haveI : IsTrans ℕ (fun i j => xs.getD j 0 ≤ xs.getD i 0) :=
    ⟨fun a b c hab hbc => le_trans hbc hab⟩
  exact List.sorted_insertionSort _ _

lemma argsortDesc_perm (xs : List ℝ) :
    List.Perm (argsortDesc xs) (List.range xs.length) :=
  List.perm_insertionSort _ _

lemma argsortDesc_length (xs : List ℝ) : (argsortDesc xs).length = xs.length := by
  rw [(argsortDesc_perm xs).length_eq, List.length_range]

lemma zeroed_spectrum_getD_zero (a : List ℝ) : (zeroed_spectrum a).getD 0 0 = 0 := by
  unfold zeroed_spectrum
  rcases h : spectrum a with _ | ⟨x, xs⟩
  · simp
  · simp

lemma zeroed_spectrum_length (a : List ℝ) :
    (zeroed_spectrum a).length = a.length / 2 + 1 := by
  unfold zeroed_spectrum spectrum
  rw [List.length_set, List.length_map, List.length_range]

lemma center_length (a : List ℝ) : (center a).length = a.length := by
  unfold center
  rw [List.length_map]

/-- Claim C5 counterexample: the 4-sample signal `[3, 1, -1, -3]` at
200 Hz has spectrum `[0, √32, 4]`; the top-3 selection on the zeroed
spectrum returns bin indices `[1, 2, 0]`, so the third returned peak is
the zero-frequency DC bin — the claim that every returned peak frequency
is nonzero is false. -/
theorem C5_counterexample :
    extract_natural_frequency (some exSig) none none 200 =
      Except.ok (50, 100, 0) := by
  rw [extract_single_eq exSig (by simp [exSig]) 200, center_exSig, zeroed_exSig,
    argsort_exSig]
  show Except.ok (rfft_freq exSig.length 200 1, rfft_freq exSig.length 200 2,
    rfft_freq exSig.length 200 0) = Except.ok (50, 100, 0)
  norm_num [rfft_freq, exSig]

/-- Claim C5 (amended): the DC bin is excluded in amplitude only — its
amplitude is zeroed before selection, but its index can still be
returned when fewer than three non-DC bins carry positive amplitude.
The three returned peaks are ordered by descending (zeroed) amplitude,
and whenever at least three bins of the zeroed spectrum have positive
amplitude, all three returned frequencies are nonzero. -/
theorem C5_peak_selection (a : List ℝ) (fs : ℝ) (hfs : 0 < fs) (hlen : 4 ≤ a.length) :
    ∃ i1 i2 i3 : ℕ,
      extract_natural_frequency (some a) none none fs =
        Except.ok (rfft_freq a.length fs i1, rfft_freq a.length fs i2,
          rfft_freq a.length fs i3) ∧
      (zeroed_spectrum (center a)).getD i2 0 ≤ (zeroed_spectrum (center a)).getD i1 0 ∧
      (zeroed_spectrum (center a)).getD i3 0 ≤ (zeroed_spectrum (center a)).getD i2 0 ∧
      (3 ≤ ((List.range (zeroed_spectrum (center a)).length).filter
          (fun k => decide (0 < (zeroed_spectrum (center a)).getD k 0))).length →
        rfft_freq a.length fs i1 ≠ 0 ∧ rfft_freq a.length fs i2 ≠ 0 ∧
          rfft_freq a.length fs i3 ≠ 0) := by
  have ha : a ≠ [] := by
    intro h
    rw [h] at hlen
    simp at hlen
  have hsplen : 3 ≤ (zeroed_spectrum (center a)).length := by
    rw [zeroed_spectrum_length, center_length]
    omega
  have hslen := argsortDesc_length (zeroed_spectrum (center a))
  have hsorted := argsortDesc_sorted (zeroed_spectrum (center a))
  have hperm := (argsortDesc_perm (zeroed_spectrum (center a))).filter
    (fun k => decide (0 < (zeroed_spectrum (center a)).getD k 0))
  rcases hs : argsortDesc (zeroed_spectrum (center a)) with
    _ | ⟨i1, _ | ⟨i2, _ | ⟨i3, rest⟩⟩⟩
  · rw [hs] at hslen
    simp at hslen
    omega
  · rw [hs] at hslen
    simp at hslen
    omega
  · rw [hs] at hslen
    simp at hslen
    omega
  rw [hs] at hsorted hperm
  obtain ⟨h1all, hsorted2⟩ := List.sorted_cons.mp hsorted
  obtain ⟨h2all, hsorted3⟩ := List.sorted_cons.mp hsorted2
  have h12 : (zeroed_spectrum (center a)).getD i2 0 ≤
      (zeroed_spectrum (center a)).getD i1 0 := h1all i2 (by simp)
  have h23 : (zeroed_spectrum (center a)).getD i3 0 ≤
      (zeroed_spectrum (center a)).getD i2 0 := h2all i3 (by simp)
  refine ⟨i1, i2, i3, ?_, h12, h23, ?_⟩
  · rw [extract_single_eq a ha fs, hs]
    simp [List.take_succ_cons]
  · intro hcount
    have hpos3 : 0 < (zeroed_spectrum (center a)).getD i3 0 := by
      by_contra hle
      push_neg at hle
      have hallle : ∀ x ∈ i3 :: rest, (zeroed_spectrum (center a)).getD x 0 ≤ 0 := by
        intro x hx
        rcases List.mem_cons.mp hx with h | h
        · rw [h]
          exact hle
        · obtain ⟨h3all, -⟩ := List.sorted_cons.mp hsorted3
          exact le_trans (h3all x h) hle
      have hfilnil : (i3 :: rest).filter
          (fun k => decide (0 < (zeroed_spectrum (center a)).getD k 0)) = [] := by
        rw [List.filter_eq_nil_iff]
        intro x hx
        simp only [decide_eq_true_eq]
        exact not_lt.mpr (hallle x hx)
      have hfl : ((i1 :: i2 :: i3 :: rest).filter
          (fun k => decide (0 < (zeroed_spectrum (center a)).getD k 0))).length ≤ 2 := by
        rw [List.filter_cons, List.filter_cons, hfilnil]
        split_ifs <;> simp
      have hlen_eq := hperm.length_eq
      omega
    have hpos2 : 0 < (zeroed_spectrum (center a)).getD i2 0 := lt_of_lt_of_le hpos3 h23
    have hpos1 : 0 < (zeroed_spectrum (center a)).getD i1 0 := lt_of_lt_of_le hpos2 h12
    have hdc := zeroed_spectrum_getD_zero (center a)
    have hne1 : i1 ≠ 0 := by
      intro h
      rw [h, hdc] at hpos1
      exact lt_irrefl 0 hpos1
    have hne2 : i2 ≠ 0 := by
      intro h
      rw [h, hdc] at hpos2
      exact lt_irrefl 0 hpos2
    have hne3 : i3 ≠ 0 := by
      intro h
      rw [h, hdc] at hpos3
      exact lt_irrefl 0 hpos3
    have hfreq : ∀ i : ℕ, i ≠ 0 → rfft_freq a.length fs i ≠ 0 := by
      intro i hi
      unfold rfft_freq
      have hipos : (0 : ℝ) < i := by
        exact_mod_cast Nat.pos_of_ne_zero hi
      have hNpos : (0 : ℝ) < a.length := by
        have hp : 0 < a.length := by omega
        exact_mod_cast hp
      exact ne_of_gt (div_pos (mul_pos hipos hfs) hNpos)
    exact ⟨hfreq i1 hne1, hfreq i2 hne2, hfreq i3 hne3⟩

/-- Claim C5 witness: the amended statement at the concrete 4-sample
signal and 200 Hz. -/
theorem C5_peak_selection_witness :
    ∃ i1 i2 i3 : ℕ,
      extract_natural_frequency (some exSig) none none 200 =
        Except.ok (rfft_freq exSig.length 200 i1, rfft_freq exSig.length 200 i2,
          rfft_freq exSig.length 200 i3) ∧
      (zeroed_spectrum (center exSig)).getD i2 0 ≤
        (zeroed_spectrum (center exSig)).getD i1 0 ∧
      (zeroed_spectrum (center exSig)).getD i3 0 ≤
        (zeroed_spectrum (center exSig)).getD i2 0 ∧
      (3 ≤ ((List.range (zeroed_spectrum (center exSig)).length).filter
          (fun k => decide (0 < (zeroed_spectrum (center exSig)).getD k 0))).length →
        rfft_freq exSig.length 200 i1 ≠ 0 ∧ rfft_freq exSig.length 200 i2 ≠ 0 ∧
          rfft_freq exSig.length 200 i3 ≠ 0) :=
  C5_peak_selection exSig 200 (by norm_num) (by simp [exSig])

/-- Claim C6 counterexample: the claim asserts a data error for a
non-positive sampling frequency, but the code never validates `fs`: at
`fs = -200` extraction succeeds and returns (negative) frequencies. -/
theorem C6_counterexample :
    ¬ (0 : ℝ) < (-200 : ℝ) ∧
      extract_natural_frequency (some exSig) none none (-200) =
        Except.ok (-50, -100, 0) := by
  refine ⟨by norm_num, ?_⟩
  rw [extract_single_eq exSig (by simp [exSig]) (-200), center_exSig, zeroed_exSig,
    argsort_exSig]
  show Except.ok (rfft_freq exSig.length (-200) 1, rfft_freq exSig.length (-200) 2,
    rfft_freq exSig.length (-200) 0) = Except.ok (-50, -100, 0)
  norm_num [rfft_freq, exSig]

/-- Claim C6 (amended): extraction raises for zero supplied axes, and
raises for windows of fewer than 4 samples (a sub-3-bin spectrum fails
the three-way unpack; a zero-length window fails inside the FFT), but
the sampling frequency is never validated. -/
theorem C6_error_cases (fs : ℝ) (a : List ℝ) (hshort : a.length < 4) :
    extract_natural_frequency none none none fs =
      Except.error ExtractErr.noComponents ∧
    ∃ e, extract_natural_frequency (some a) none none fs = Except.error e := by
  refine ⟨extract_none fs, ?_⟩
  rcases eq_or_ne a [] with rfl | ha
  · exact ⟨ExtractErr.emptyFFT, extract_single_nil fs⟩
  · have hsplen : (zeroed_spectrum (center a)).length ≤ 2 := by
      rw [zeroed_spectrum_length, center_length]
      omega
    have hslen := argsortDesc_length (zeroed_spectrum (center a))
    rw [extract_single_eq a ha fs]
    rcases hs : argsortDesc (zeroed_spectrum (center a)) with
      _ | ⟨x, _ | ⟨y, _ | ⟨z, r⟩⟩⟩
    · exact ⟨ExtractErr.unpack, rfl⟩
    · exact ⟨ExtractErr.unpack, rfl⟩
    · exact ⟨ExtractErr.unpack, rfl⟩
    · rw [hs] at hslen
      simp at hslen
      omega

/-- Claim C6 witness: the amended statement at a concrete 3-sample
window. -/
theorem C6_error_cases_witness :
    extract_natural_frequency none none none 5 =
      Except.error ExtractErr.noComponents ∧
    ∃ e, extract_natural_frequency (some [1, 2, 3]) none none 5 = Except.error e :=
  C6_error_cases 5 [1, 2, 3] (by norm_num)

end PinePole
